import Mathlib

/-!
Shallow embedding of the CareCompanion schedule/dose-tracking store
(`types.ts` data model and the zustand care store: `addMedicines`,
`addRemedy`, `removeRemedy`, `updateInteractions`, `generateSchedule`,
`toggleDose`, `clearAll`).

Conventions of the embedding:
* JS strings become `String`; arrays become `List`.
* The wall clock is passed in explicitly: `generateSchedule` receives
  `dateStr : Nat → String`, where `dateStr i` stands for
  `(today + i days).toISOString().split('T')[0]`, and `now` stands for
  `new Date().toISOString()`; `toggleDose` receives the freshly minted
  history-entry id and the current timestamp as parameters.
* `Record<string, Interaction>` becomes an association list looked up
  with `List.lookup`; `interactions[med.id] || undefined` is its
  `Option`-valued lookup (an `Interaction` object is always truthy).
-/

namespace CareCompanion

inductive DoseStatus where
  | pending
  | taken
  | missed
deriving DecidableEq, Repr

inductive Severity where
  | high
  | medium
deriving DecidableEq, Repr

structure Interaction where
  severity : Severity
  summary : String
  detail : String
deriving DecidableEq, Repr

structure Medicine where
  id : String
  name : String
  dosage : String
  frequency : String
  timings : List String
  durationDays : Nat
  potentialInteractions : Option Interaction := none
deriving DecidableEq, Repr

structure Dose where
  id : String
  medicineId : String
  medicineName : String
  date : String
  timeSlot : String
  status : DoseStatus
deriving DecidableEq, Repr

structure HistoryEntry where
  id : String
  medicineName : String
  timeSlot : String
  date : String
  timestamp : String
  status : DoseStatus
deriving DecidableEq, Repr

structure CareState where
  medicines : List Medicine
  doses : List Dose
  history : List HistoryEntry
  remedies : List String
  lastExtractionDate : Option String
deriving DecidableEq, Repr

/-- The initial store state (`medicines: [], doses: [], history: [],
remedies: [], lastExtractionDate: null`). -/
def initialState : CareState :=
  { medicines := [], doses := [], history := [], remedies := [],
    lastExtractionDate := none }

/-- The dose identifier built inline in `generateSchedule`:
`` `${med.id}-${dateStr}-${slot}` ``. -/
def doseIdOf (medId dateStr slot : String) : String :=
  medId ++ "-" ++ dateStr ++ "-" ++ slot

/-- The dose pushed for one (medicine, date, slot) in `generateSchedule`. -/
def mkDose (med : Medicine) (dateStr slot : String) : Dose :=
  { id := doseIdOf med.id dateStr slot,
    medicineId := med.id,
    medicineName := med.name,
    date := dateStr,
    timeSlot := slot,
    status := DoseStatus.pending }

/-- The `newDoses` array built by `generateSchedule`: for each medicine,
for `i = 0..9`, for each declared slot, one pending dose dated
`dateStr i`. -/
def scheduleDoses (dateStr : Nat → String) (newMedicines : List Medicine) :
    List Dose :=
  newMedicines.flatMap fun med =>
    (List.range 10).flatMap fun i =>
      med.timings.map fun slot => mkDose med (dateStr i) slot

/-- Source `generateSchedule(newMedicines)`: appends the medicines, appends the
generated doses, and stamps `lastExtractionDate` with the current time. -/
def generateSchedule (dateStr : Nat → String) (now : String)
    (newMedicines : List Medicine) (state : CareState) : CareState :=
  { state with
    medicines := state.medicines ++ newMedicines,
    doses := state.doses ++ scheduleDoses dateStr newMedicines,
    lastExtractionDate := some now }

/-- Source `addMedicines(newMedicines)`: appends to the medicine list only. -/
def addMedicines (newMedicines : List Medicine) (state : CareState) :
    CareState :=
  { state with medicines := state.medicines ++ newMedicines }

/-- Source `addRemedy(name)`: appends unless the name is already present. -/
def addRemedy (name : String) (state : CareState) : CareState :=
  { state with
    remedies :=
      if state.remedies.contains name then state.remedies
      else state.remedies ++ [name] }

/-- Source `removeRemedy(name)`: keeps exactly the remedies different from
`name` (`filter(r => r !== name)`). -/
def removeRemedy (name : String) (state : CareState) : CareState :=
  { state with remedies := state.remedies.filter fun r => r != name }

/-- Source `updateInteractions(interactions)`: rewrites every medicine's
`potentialInteractions` to `interactions[med.id] || undefined`. -/
def updateInteractions (interactions : List (String × Interaction))
    (state : CareState) : CareState :=
  { state with
    medicines := state.medicines.map fun med =>
      { med with potentialInteractions := interactions.lookup med.id } }

/-- The history update in `toggleDose`:
`[historyEntry, ...state.history].slice(0, 100)`. -/
def recordEntry (entry : HistoryEntry) (history : List HistoryEntry) :
    List HistoryEntry :=
  (entry :: history).take 100

/-- Source `toggleDose(doseId, status)`: finds the dose; missing id and
same-status calls return the state unchanged; otherwise the dose's
status is replaced and a history entry is prepended (history clamped to
100 entries).  `histId` and `timestamp` stand for the freshly generated
`hist-...` id and `new Date().toISOString()`. -/
def toggleDose (histId timestamp : String) (doseId : String)
    (status : DoseStatus) (state : CareState) : CareState :=
  match state.doses.find? (fun d => d.id == doseId) with
  | none => state
  | some targetDose =>
    if targetDose.status = status then state
    else
      let historyEntry : HistoryEntry :=
        { id := histId,
          medicineName := targetDose.medicineName,
          timeSlot := targetDose.timeSlot,
          date := targetDose.date,
          timestamp := timestamp,
          status := status }
      { state with
        doses := state.doses.map fun d =>
          if d.id == doseId then { d with status := status } else d,
        history := recordEntry historyEntry state.history }

/-- Source `clearAll()`: resets every component of the aggregate. -/
def clearAll (_state : CareState) : CareState :=
  { medicines := [], doses := [], history := [], remedies := [],
    lastExtractionDate := none }

/-- One store operation, with the wall-clock inputs it consumes packed
into the operation. -/
inductive Op where
  | addMedicines (newMedicines : List Medicine)
  | generateSchedule (dateStr : Nat → String) (now : String)
      (newMedicines : List Medicine)
  | toggleDose (histId timestamp doseId : String) (status : DoseStatus)
  | addRemedy (name : String)
  | removeRemedy (name : String)
  | updateInteractions (interactions : List (String × Interaction))
  | clearAll

/-- Apply one store operation to a state. -/
def applyOp (op : Op) (state : CareState) : CareState :=
  match op with
  | Op.addMedicines ms => addMedicines ms state
  | Op.generateSchedule dateStr now ms => generateSchedule dateStr now ms state
  | Op.toggleDose histId ts doseId status =>
      toggleDose histId ts doseId status state
  | Op.addRemedy name => addRemedy name state
  | Op.removeRemedy name => removeRemedy name state
  | Op.updateInteractions m => updateInteractions m state
  | Op.clearAll => clearAll state

/-- The state reached from `initialState` by a sequence of operations. -/
def runOps (ops : List Op) : CareState :=
  ops.foldl (fun s op => applyOp op s) initialState

/-! ### Helper lemmas -/

/-- Applying `find?` on the status-updated dose list still finds the (updated)
dose, because the update keeps every dose's id. -/
theorem find?_map_status_update (doseId : String) (status : DoseStatus) :
    ∀ (l : List Dose) (d : Dose),
      l.find? (fun x => x.id == doseId) = some d →
      (l.map fun x =>
          if x.id == doseId then { x with status := status } else x).find?
          (fun x => x.id == doseId) = some { d with status := status }
  | [], d, h => by simp at h
  | a :: t, d, h => by
    by_cases ha : a.id = doseId
    · have hfind : a = d := by
        simp [List.find?, ha] at h
        exact h
      subst hfind
      simp [List.find?, ha]
    · have hbeq : (a.id == doseId) = false := by simp [ha]
      simp only [List.find?, hbeq] at h
      simpa [List.find?, hbeq] using find?_map_status_update doseId status t d h

/-- Splitting at an unambiguous separator: if the part before the
separator is separator-free on both sides, the decomposition is
unique. -/
theorem sep_split : ∀ (a a' b b' : List Char),
    (∀ c ∈ a, c ≠ '-') → (∀ c ∈ a', c ≠ '-') →
    a ++ '-' :: b = a' ++ '-' :: b' → a = a' ∧ b = b'
  | [], [], _, _, _, _, h => ⟨rfl, by simpa using h⟩
  | [], c :: t, _, _, _, ha', h => by
    simp only [List.nil_append, List.cons_append, List.cons.injEq] at h
    exact absurd h.1.symm (ha' c (List.mem_cons_self c t))
  | c :: t, [], _, _, ha, _, h => by
    simp only [List.cons_append, List.nil_append, List.cons.injEq] at h
    exact absurd h.1 (ha c (List.mem_cons_self c t))
  | c :: t, c' :: t', b, b', ha, ha', h => by
    simp only [List.cons_append, List.cons.injEq] at h
    obtain ⟨rfl, h2⟩ := h
    have ih := sep_split t t' b b'
      (fun x hx => ha x (List.mem_cons_of_mem _ hx))
      (fun x hx => ha' x (List.mem_cons_of_mem _ hx)) h2
    exact ⟨by rw [ih.1], ih.2⟩

/-- The character data of a generated dose identifier. -/
theorem doseIdOf_data (medId dateStr slot : String) :
    (doseIdOf medId dateStr slot).data =
      medId.data ++ '-' :: (dateStr.data ++ '-' :: slot.data) := by
  have hdash : ("-" : String).data = ['-'] := rfl
  simp [doseIdOf, String.data_append, hdash, List.append_assoc]

/-! ### Claim theorems -/

/-- C4: for every state and every dose found under `doseId`, calling
`toggleDose(doseId, s)` with `s` equal to that dose's current status
changes nothing: the state (in particular the dose list and the
history) is returned unchanged, and no history entry is appended. -/
theorem toggleDose_same_status_noop (histId ts doseId : String)
    (status : DoseStatus) (st : CareState) (d : Dose)
    (hfind : st.doses.find? (fun x => x.id == doseId) = some d)
    (hstatus : d.status = status) :
    toggleDose histId ts doseId status st = st := by
  unfold toggleDose
  rw [hfind]
  simp [hstatus]

/-- C4 witness: a concrete same-status call is a no-op. -/
theorem toggleDose_same_status_noop_witness :
    toggleDose "h1" "2024-01-01T08:00:00Z" "m1-2024-01-01-Morning"
        DoseStatus.pending
        { initialState with
          doses := [mkDose
            { id := "m1", name := "Paracetamol", dosage := "500mg",
              frequency := "od", timings := ["Morning"], durationDays := 5 }
            "2024-01-01" "Morning"] } =
      { initialState with
        doses := [mkDose
          { id := "m1", name := "Paracetamol", dosage := "500mg",
            frequency := "od", timings := ["Morning"], durationDays := 5 }
          "2024-01-01" "Morning"] } :=
  toggleDose_same_status_noop "h1" "2024-01-01T08:00:00Z"
    "m1-2024-01-01-Morning" DoseStatus.pending _
    (mkDose
      { id := "m1", name := "Paracetamol", dosage := "500mg",
        frequency := "od", timings := ["Morning"], durationDays := 5 }
      "2024-01-01" "Morning")
    (by decide) (by decide)

/-- C6: for every state and every `doseId` carried by no dose in the
store, `toggleDose(doseId, s)` is a silent no-op for every target
status: the whole state (doses, history, medicines, remedies,
lastExtractionDate) is returned unchanged. -/
theorem toggleDose_missing_id_noop (histId ts doseId : String)
    (status : DoseStatus) (st : CareState)
    (h : ∀ d ∈ st.doses, d.id ≠ doseId) :
    toggleDose histId ts doseId status st = st := by
  have hfind : st.doses.find? (fun d => d.id == doseId) = none := by
    rw [List.find?_eq_none]
    intro d hd
    simp [h d hd]
  unfold toggleDose
  rw [hfind]

/-- C6 witness: toggling an unknown id on a concrete non-empty store
changes nothing. -/
theorem toggleDose_missing_id_noop_witness :
    toggleDose "h1" "2024-01-01T08:00:00Z" "unknown-id" DoseStatus.taken
        { initialState with
          doses := [mkDose
            { id := "m1", name := "Paracetamol", dosage := "500mg",
              frequency := "od", timings := ["Morning"], durationDays := 5 }
            "2024-01-01" "Morning"] } =
      { initialState with
        doses := [mkDose
          { id := "m1", name := "Paracetamol", dosage := "500mg",
            frequency := "od", timings := ["Morning"], durationDays := 5 }
          "2024-01-01" "Morning"] } :=
  toggleDose_missing_id_noop "h1" "2024-01-01T08:00:00Z" "unknown-id"
    DoseStatus.taken _ (by decide)

/-- C2: when the dose found under `doseId` has a status different from
the requested one, `toggleDose` replaces that dose's status (and only
the status, via an immutable per-element replace) and prepends exactly
one history entry carrying the dose's medicine name, slot and date and
the new status, with the history clamped to 100 entries; everything is
returned as one new state snapshot whose other components are those of
the old state. -/
theorem toggleDose_transition_updates (histId ts doseId : String)
    (status : DoseStatus) (st : CareState) (d : Dose)
    (hfind : st.doses.find? (fun x => x.id == doseId) = some d)
    (hne : d.status ≠ status) :
    toggleDose histId ts doseId status st =
      { st with
        doses := st.doses.map fun x =>
          if x.id == doseId then { x with status := status } else x,
        history :=
          { id := histId, medicineName := d.medicineName,
            timeSlot := d.timeSlot, date := d.date, timestamp := ts,
            status := status } :: st.history.take 99 } ∧
    (toggleDose histId ts doseId status st).doses.find?
        (fun x => x.id == doseId) = some { d with status := status } := by
  have hmain : toggleDose histId ts doseId status st =
      { st with
        doses := st.doses.map fun x =>
          if x.id == doseId then { x with status := status } else x,
        history :=
          { id := histId, medicineName := d.medicineName,
            timeSlot := d.timeSlot, date := d.date, timestamp := ts,
            status := status } :: st.history.take 99 } := by
    unfold toggleDose
    rw [hfind]
    dsimp only
    rw [if_neg hne]
    rfl
  refine ⟨hmain, ?_⟩
  rw [hmain]
  exact find?_map_status_update doseId status st.doses d hfind

/-- C2 witness: a concrete pending → taken transition updates the dose
and puts the matching entry at the head of the history. -/
theorem toggleDose_transition_updates_witness :
    toggleDose "h1" "2024-01-01T08:00:00Z" "m1-2024-01-01-Morning"
        DoseStatus.taken
        { initialState with
          doses := [mkDose
            { id := "m1", name := "Paracetamol", dosage := "500mg",
              frequency := "od", timings := ["Morning"], durationDays := 5 }
            "2024-01-01" "Morning"] } =
      { initialState with
        doses := [{ (mkDose
          { id := "m1", name := "Paracetamol", dosage := "500mg",
            frequency := "od", timings := ["Morning"], durationDays := 5 }
          "2024-01-01" "Morning") with status := DoseStatus.taken }],
        history := [{ id := "h1", medicineName := "Paracetamol",
                      timeSlot := "Morning", date := "2024-01-01",
                      timestamp := "2024-01-01T08:00:00Z",
                      status := DoseStatus.taken }] } := by
  have h := toggleDose_transition_updates "h1" "2024-01-01T08:00:00Z"
    "m1-2024-01-01-Morning" DoseStatus.taken
    { initialState with
      doses := [mkDose
        { id := "m1", name := "Paracetamol", dosage := "500mg",
          frequency := "od", timings := ["Morning"], durationDays := 5 }
        "2024-01-01" "Morning"] }
    (mkDose
      { id := "m1", name := "Paracetamol", dosage := "500mg",
        frequency := "od", timings := ["Morning"], durationDays := 5 }
      "2024-01-01" "Morning")
    (by decide) (by decide)
  rw [h.1]
  decide

/-- C10: `toggleDose` touches only the doses and the history: on every
call the medicines, the remedies and `lastExtractionDate` are
unchanged, and the dose list is a pointwise rewrite that keeps every
dose's id, medicine reference, name, date and slot, and leaves every
dose whose id differs from `doseId` entirely unchanged. -/
theorem toggleDose_frame_only_doses_history (histId ts doseId : String)
    (status : DoseStatus) (st : CareState) :
    (toggleDose histId ts doseId status st).medicines = st.medicines ∧
    (toggleDose histId ts doseId status st).remedies = st.remedies ∧
    (toggleDose histId ts doseId status st).lastExtractionDate =
      st.lastExtractionDate ∧
    ∃ f : Dose → Dose,
      (toggleDose histId ts doseId status st).doses = st.doses.map f ∧
      ∀ x : Dose, (f x).id = x.id ∧ (f x).medicineId = x.medicineId ∧
        (f x).medicineName = x.medicineName ∧ (f x).date = x.date ∧
        (f x).timeSlot = x.timeSlot ∧ (x.id ≠ doseId → f x = x) := by
  unfold toggleDose
  cases hfind : st.doses.find? (fun d => d.id == doseId) with
  | none =>
    exact ⟨rfl, rfl, rfl, fun x => x, by simp,
      fun x => ⟨rfl, rfl, rfl, rfl, rfl, fun _ => rfl⟩⟩
  | some targetDose =>
    dsimp only
    by_cases hst : targetDose.status = status
    · rw [if_pos hst]
      exact ⟨rfl, rfl, rfl, fun x => x, by simp,
        fun x => ⟨rfl, rfl, rfl, rfl, rfl, fun _ => rfl⟩⟩
    · rw [if_neg hst]
      refine ⟨rfl, rfl, rfl,
        fun x => if x.id == doseId then { x with status := status } else x,
        rfl, fun x => ?_⟩
      by_cases hx : x.id = doseId
      · simp [hx]
      · simp [hx]

/-- C10 witness: a concrete transitioning call leaves medicines,
remedies, the extraction marker and the unmatched dose unchanged. -/
theorem toggleDose_frame_only_doses_history_witness :
    (toggleDose "h1" "t1" "m1-d1-Morning" DoseStatus.taken
        { medicines := [], doses := [], history := [],
          remedies := ["Vitamin C"],
          lastExtractionDate := some "2024-01-01T00:00:00Z" }).remedies =
      ["Vitamin C"] :=
  (toggleDose_frame_only_doses_history "h1" "t1" "m1-d1-Morning"
    DoseStatus.taken
    { medicines := [], doses := [], history := [],
      remedies := ["Vitamin C"],
      lastExtractionDate := some "2024-01-01T00:00:00Z" }).2.1

/-- C5 counterexample: the dose identifier is the plain hyphen-joined
concatenation of medicine id, date and slot, so two distinct
(medicine id, date, slot) triples — both with well-formed ISO dates —
can produce the same identifier once the medicine id or slot itself
contains a hyphen. -/
theorem doseIdOf_collision :
    doseIdOf "a" "2024-01-01" "2024-01-02-x" =
      doseIdOf "a-2024-01-01" "2024-01-02" "x" ∧
    (("a", "2024-01-01", "2024-01-02-x") :
        String × String × String) ≠ ("a-2024-01-01", "2024-01-02", "x") := by
  constructor
  · rfl
  · decide

/-- C5 (amended): the dose identifier is a pure deterministic function
of (medicine id, date, slot), and it is collision-free across distinct
triples provided the medicine id and the slot contain no hyphen
character (the date may be any string, in particular any ISO date). -/
theorem doseIdOf_collision_free_no_dash (id1 d1 s1 id2 d2 s2 : String)
    (hid1 : ∀ c ∈ id1.data, c ≠ '-') (hs1 : ∀ c ∈ s1.data, c ≠ '-')
    (hid2 : ∀ c ∈ id2.data, c ≠ '-') (hs2 : ∀ c ∈ s2.data, c ≠ '-')
    (heq : doseIdOf id1 d1 s1 = doseIdOf id2 d2 s2) :
    id1 = id2 ∧ d1 = d2 ∧ s1 = s2 := by
  have hdata : id1.data ++ '-' :: (d1.data ++ '-' :: s1.data) =
      id2.data ++ '-' :: (d2.data ++ '-' :: s2.data) := by
    have h := congrArg String.data heq
    rwa [doseIdOf_data, doseIdOf_data] at h
  obtain ⟨hid, hrest⟩ := sep_split _ _ _ _ hid1 hid2 hdata
  have hrev : s1.data.reverse ++ '-' :: d1.data.reverse =
      s2.data.reverse ++ '-' :: d2.data.reverse := by
    have h := congrArg List.reverse hrest
    simpa [List.reverse_append, List.append_assoc] using h
  obtain ⟨hs, hd⟩ := sep_split _ _ _ _
    (fun c hc => hs1 c (List.mem_reverse.mp hc))
    (fun c hc => hs2 c (List.mem_reverse.mp hc)) hrev
  exact ⟨String.ext hid, String.ext (List.reverse_injective hd),
    String.ext (List.reverse_injective hs)⟩

/-- C5 witness: the hyphen-free side conditions are satisfiable and the
amended theorem applies to a concrete generated identifier. -/
theorem doseIdOf_collision_free_no_dash_witness :
    ("m1" : String) = "m1" ∧ ("2024-01-01" : String) = "2024-01-01" ∧
      ("Morning" : String) = "Morning" :=
  doseIdOf_collision_free_no_dash "m1" "2024-01-01" "Morning"
    "m1" "2024-01-01" "Morning"
    (by decide) (by decide) (by decide) (by decide) rfl

/-- C7: `updateInteractions` rewrites every medicine's annotation
wholesale: each medicine ends up with exactly the map's entry for its
id (or no annotation when its id has no entry), all of its other
fields and the rest of the state are untouched, and the empty map
clears every annotation. -/
theorem updateInteractions_full_overwrite
    (m : List (String × Interaction)) (st : CareState) :
    (updateInteractions m st).medicines.length = st.medicines.length ∧
    (∀ (k : Nat) (hk : k < st.medicines.length),
      (updateInteractions m st).medicines[k]? =
        some { st.medicines[k] with
               potentialInteractions := m.lookup (st.medicines[k]).id }) ∧
    (∀ (k : Nat) (hk : k < st.medicines.length),
      (∀ q ∈ m, q.1 ≠ (st.medicines[k]).id) →
      (updateInteractions m st).medicines[k]? =
        some { st.medicines[k] with potentialInteractions := none }) ∧
    (updateInteractions m st).doses = st.doses ∧
    (updateInteractions m st).history = st.history ∧
    (updateInteractions m st).remedies = st.remedies ∧
    (updateInteractions m st).lastExtractionDate = st.lastExtractionDate ∧
    (∀ med ∈ (updateInteractions [] st).medicines,
      med.potentialInteractions = none) := by
  have hpos : ∀ (k : Nat) (hk : k < st.medicines.length),
      (updateInteractions m st).medicines[k]? =
        some { st.medicines[k] with
               potentialInteractions := m.lookup (st.medicines[k]).id } := by
    intro k hk
    have hmap : (updateInteractions m st).medicines = st.medicines.map
        fun med => { med with potentialInteractions := m.lookup med.id } :=
      rfl
    rw [hmap, List.getElem?_map, List.getElem?_eq_getElem hk]
    rfl
  refine ⟨by simp [updateInteractions], hpos, ?_, rfl, rfl, rfl, rfl, ?_⟩
  · intro k hk habs
    have hnone : m.lookup (st.medicines[k]).id = none := by
      clear hpos
      induction m with
      | nil => rfl
      | cons q t ih =>
        have hq : q.1 ≠ (st.medicines[k]).id :=
          habs q (List.mem_cons_self q t)
        have hbeq : ((st.medicines[k]).id == q.1) = false :=
          beq_eq_false_iff_ne.mpr (Ne.symm hq)
        cases q with
        | mk a b =>
          simp only [List.lookup, hbeq]
          exact ih fun p hp => habs p (List.mem_cons_of_mem _ hp)
    rw [hpos k hk, hnone]
  · intro med hmed
    simp only [updateInteractions, List.mem_map] at hmed
    obtain ⟨med0, _, rfl⟩ := hmed
    rfl

/-- C7 witness: on a concrete two-medicine state, a singleton map
annotates the matching medicine and the mapless medicine comes out
with no annotation. -/
theorem updateInteractions_full_overwrite_witness :
    (updateInteractions
        [("m1", { severity := Severity.high, summary := "s",
                  detail := "d" })]
        { medicines :=
            [{ id := "m1", name := "A", dosage := "1", frequency := "od",
               timings := ["Morning"], durationDays := 3 },
             { id := "m2", name := "B", dosage := "2", frequency := "bd",
               timings := ["Night"], durationDays := 5,
               potentialInteractions :=
                 some { severity := Severity.medium, summary := "old",
                        detail := "old" } }],
          doses := [], history := [], remedies := [],
          lastExtractionDate := none }).medicines[1]? =
      some { id := "m2", name := "B", dosage := "2", frequency := "bd",
             timings := ["Night"], durationDays := 5,
             potentialInteractions := none } := by
  have h := (updateInteractions_full_overwrite
    [("m1", { severity := Severity.high, summary := "s", detail := "d" })]
    { medicines :=
        [{ id := "m1", name := "A", dosage := "1", frequency := "od",
           timings := ["Morning"], durationDays := 3 },
         { id := "m2", name := "B", dosage := "2", frequency := "bd",
           timings := ["Night"], durationDays := 5,
           potentialInteractions :=
             some { severity := Severity.medium, summary := "old",
                    detail := "old" } }],
      doses := [], history := [], remedies := [],
      lastExtractionDate := none }).2.2.1 1 (by decide) (by decide)
  simpa using h

end CareCompanion

namespace CareCompanion

/-- The operation `toggleDose` never touches the remedy list, in any of its three
branches. -/
theorem toggleDose_remedies_eq (histId ts doseId : String)
    (status : DoseStatus) (st : CareState) :
    (toggleDose histId ts doseId status st).remedies = st.remedies := by
  unfold toggleDose
  split
  · rfl
  · split
    · rfl
    · rfl

/-- Every store operation preserves duplicate-freedom of the remedy
list. -/
theorem applyOp_remedies_nodup (op : Op) (s : CareState)
    (h : s.remedies.Nodup) : (applyOp op s).remedies.Nodup := by
  cases op with
  | addMedicines ms => exact h
  | generateSchedule dateStr now ms => exact h
  | toggleDose histId ts doseId status =>
    rw [show applyOp (Op.toggleDose histId ts doseId status) s =
      toggleDose histId ts doseId status s from rfl]
    rw [toggleDose_remedies_eq]
    exact h
  | addRemedy name =>
    show (if s.remedies.contains name then s.remedies
      else s.remedies ++ [name]).Nodup
    by_cases hc : s.remedies.contains name
    · rw [if_pos hc]; exact h
    · rw [if_neg hc]
      have hmem : name ∉ s.remedies := by
        intro hm
        exact hc (List.elem_eq_true_of_mem hm)
      rw [List.nodup_append]
      exact ⟨h, List.nodup_singleton name,
        by simpa [List.disjoint_singleton] using hmem⟩
  | removeRemedy name => exact List.Nodup.filter _ h
  | updateInteractions m => exact h
  | clearAll => exact List.nodup_nil

/-- Folding any operation sequence from a duplicate-free remedy list
keeps it duplicate-free. -/
theorem foldl_remedies_nodup :
    ∀ (ops : List Op) (s : CareState), s.remedies.Nodup →
      ((ops.foldl (fun s op => applyOp op s) s).remedies.Nodup)
  | [], _, h => h
  | op :: rest, s, h =>
    foldl_remedies_nodup rest (applyOp op s) (applyOp_remedies_nodup op s h)

/-- C9: remedy names are unique in every reachable state, adding an
already-present name (in particular adding the same name twice) is a
no-op leaving exactly one occurrence, and `removeRemedy` drops exactly
the occurrences of the given name while keeping the rest in their
relative order. -/
theorem remedy_uniqueness :
    (∀ ops : List Op, (runOps ops).remedies.Nodup) ∧
    (∀ (name : String) (st : CareState),
      addRemedy name (addRemedy name st) = addRemedy name st) ∧
    (∀ (name : String) (st : CareState), st.remedies.Nodup →
      (addRemedy name (addRemedy name st)).remedies.count name = 1) ∧
    (∀ (name : String) (st : CareState),
      (removeRemedy name st).remedies.count name = 0 ∧
      (∀ r : String, r ≠ name →
        (removeRemedy name st).remedies.count r = st.remedies.count r) ∧
      (removeRemedy name st).remedies.Sublist st.remedies) := by
  have hadd_mem : ∀ (name : String) (st : CareState),
      (addRemedy name st).remedies.contains name := by
    intro name st
    show (if st.remedies.contains name then st.remedies
      else st.remedies ++ [name]).contains name
    by_cases hc : st.remedies.contains name
    · rw [if_pos hc]; exact hc
    · rw [if_neg hc]; simp
  have hidem : ∀ (name : String) (st : CareState),
      addRemedy name (addRemedy name st) = addRemedy name st := by
    intro name st
    show { addRemedy name st with
           remedies :=
             if (addRemedy name st).remedies.contains name then
               (addRemedy name st).remedies
             else (addRemedy name st).remedies ++ [name] } = addRemedy name st
    rw [if_pos (hadd_mem name st)]
  have hcount1 : ∀ (name : String) (st : CareState), st.remedies.Nodup →
      (addRemedy name st).remedies.count name = 1 := by
    intro name st h
    show (if st.remedies.contains name then st.remedies
      else st.remedies ++ [name]).count name = 1
    by_cases hc : st.remedies.contains name
    · rw [if_pos hc]
      exact List.count_eq_one_of_mem h (List.mem_of_elem_eq_true hc)
    · rw [if_neg hc]
      have hmem : name ∉ st.remedies := fun hm =>
        hc (List.elem_eq_true_of_mem hm)
      rw [List.count_append, List.count_eq_zero_of_not_mem hmem]
      simp
  refine ⟨fun ops => foldl_remedies_nodup ops initialState List.nodup_nil,
    hidem, ?_, ?_⟩
  · intro name st h
    rw [hidem name st]
    exact hcount1 name st h
  · intro name st
    refine ⟨?_, ?_, List.filter_sublist _⟩
    · rw [List.count_eq_zero]
      intro hm
      have hx := List.of_mem_filter hm
      simp at hx
    · intro r hr
      show (st.remedies.filter fun x => x != name).count r =
        st.remedies.count r
      rw [List.count_filter]
      simp [hr]

/-- C9 witness: adding the same remedy name twice to the (duplicate
free) initial state leaves exactly one occurrence. -/
theorem remedy_uniqueness_witness :
    (addRemedy "Vitamin C" (addRemedy "Vitamin C"
      initialState)).remedies.count "Vitamin C" = 1 :=
  remedy_uniqueness.2.2.1 "Vitamin C" initialState (by decide)

/-- No single store operation can push the history past 100 entries. -/
theorem applyOp_history_le (op : Op) (s : CareState)
    (h : s.history.length ≤ 100) : (applyOp op s).history.length ≤ 100 := by
  cases op with
  | addMedicines ms => exact h
  | generateSchedule dateStr now ms => exact h
  | toggleDose histId ts doseId status =>
    show (toggleDose histId ts doseId status s).history.length ≤ 100
    unfold toggleDose
    split
    · exact h
    · split
      · exact h
      · show (recordEntry _ s.history).length ≤ 100
        unfold recordEntry
        simp [List.length_take]
  | addRemedy name => exact h
  | removeRemedy name => exact h
  | updateInteractions m => exact h
  | clearAll => exact Nat.zero_le 100

/-- The history bound is preserved along any operation sequence. -/
theorem foldl_history_le :
    ∀ (ops : List Op) (s : CareState), s.history.length ≤ 100 →
      ((ops.foldl (fun s op => applyOp op s) s).history.length ≤ 100)
  | [], _, h => h
  | op :: rest, s, h =>
    foldl_history_le rest (applyOp op s) (applyOp_history_le op s h)

/-- Prepend-then-truncate folded over a recording sequence keeps
exactly the latest 100 entries, newest first. -/
theorem foldl_recordEntry :
    ∀ (es acc : List HistoryEntry), acc.length ≤ 100 →
      es.foldl (fun h e => recordEntry e h) acc =
        (es.reverse ++ acc).take 100
  | [], acc, h => by
    simp [List.take_of_length_le h]
  | e :: es, acc, h => by
    have hstep := foldl_recordEntry es ((e :: acc).take 100)
      (by simp [List.length_take])
    have habsorb : (es.reverse ++ (e :: acc).take 100).take 100 =
        (es.reverse ++ e :: acc).take 100 := by
      rw [List.take_append_eq_append_take, List.take_append_eq_append_take,
        List.take_take]
      have hmin : min (100 - es.reverse.length) 100 =
          100 - es.reverse.length :=
        Nat.min_eq_left (Nat.sub_le 100 es.reverse.length)
      rw [hmin]
    calc (e :: es).foldl (fun h e => recordEntry e h) acc
        = es.foldl (fun h e => recordEntry e h) ((e :: acc).take 100) := rfl
      _ = (es.reverse ++ (e :: acc).take 100).take 100 := hstep
      _ = (es.reverse ++ e :: acc).take 100 := habsorb
      _ = ((e :: es).reverse ++ acc).take 100 := by
          simp [List.reverse_cons, List.append_assoc]

/-- C3: the history ledger never exceeds 100 entries in any state
reachable from the initial state, and folding more than 100
prepend-and-truncate recordings keeps exactly the 100 most recent
entries in newest-first order (each insertion prepends, truncation
evicts the oldest). -/
theorem history_bounded :
    (∀ ops : List Op, (runOps ops).history.length ≤ 100) ∧
    (∀ es : List HistoryEntry,
      es.foldl (fun h e => recordEntry e h) [] = es.reverse.take 100) ∧
    (∀ es : List HistoryEntry, 100 < es.length →
      (es.foldl (fun h e => recordEntry e h) []).length = 100) := by
  have hfold : ∀ es : List HistoryEntry,
      es.foldl (fun h e => recordEntry e h) [] = es.reverse.take 100 := by
    intro es
    have h := foldl_recordEntry es [] (Nat.zero_le 100)
    simpa using h
  refine ⟨fun ops => foldl_history_le ops initialState (Nat.zero_le 100),
    hfold, ?_⟩
  intro es hlen
  rw [hfold es]
  simp [List.length_take]
  omega

/-- C3 witness: 101 recordings leave exactly 100 entries. -/
theorem history_bounded_witness :
    ((List.replicate 101
        ({ id := "h", medicineName := "A", timeSlot := "Morning",
           date := "2024-01-01", timestamp := "t",
           status := DoseStatus.taken } : HistoryEntry)).foldl
      (fun h e => recordEntry e h) []).length = 100 :=
  history_bounded.2.2 (List.replicate 101
    { id := "h", medicineName := "A", timeSlot := "Morning",
      date := "2024-01-01", timestamp := "t",
      status := DoseStatus.taken }) (by simp)

/-- Element of a `flatMap` at a block-relative position: the element at
(sum of the lengths of the first `k` blocks) + `r` is element `r` of
block `k`. -/
theorem flatMap_getElem_aux {α β : Type} (f : α → List β) :
    ∀ (l : List α) (k : Nat) (hk : k < l.length) (r : Nat),
      r < (f (l.get ⟨k, hk⟩)).length →
      (l.flatMap f)[((l.take k).map fun a => (f a).length).sum + r]? =
        (f (l.get ⟨k, hk⟩))[r]?
  | a :: t, 0, _, r, hr => by
    rw [List.flatMap_cons]
    simp only [List.take_zero, List.map_nil, List.sum_nil, Nat.zero_add]
    exact List.getElem?_append_left hr
  | a :: t, k + 1, hk, r, hr => by
    rw [List.flatMap_cons]
    have hk' : k < t.length := Nat.lt_of_succ_lt_succ hk
    rw [List.take_succ_cons, List.map_cons, List.sum_cons, Nat.add_assoc,
      List.getElem?_append_right (Nat.le_add_right _ _),
      Nat.add_sub_cancel_left]
    exact flatMap_getElem_aux f t k hk' r hr

/-- Summing a constant over a list multiplies it by the length. -/
theorem sum_map_const {α : Type} (c : Nat) :
    ∀ l : List α, (l.map fun _ => c).sum = l.length * c
  | [] => by simp
  | a :: t => by
    rw [List.map_cons, List.sum_cons, sum_map_const c t, List.length_cons,
      Nat.succ_mul, Nat.add_comm]

/-- One medicine's generated block holds 10 doses per declared slot. -/
theorem medBlock_length (dateStr : Nat → String) (m : Medicine) :
    ((List.range 10).flatMap fun i =>
      m.timings.map fun slot => mkDose m (dateStr i) slot).length =
      10 * m.timings.length := by
  rw [List.length_flatMap]
  simp only [Function.comp_def, List.length_map]
  rw [sum_map_const, List.length_range]

/-- Element `i * |timings| + j` of one medicine's block is the day-`i`
dose of slot `j`. -/
theorem medBlock_getElem (dateStr : Nat → String) (m : Medicine)
    (i j : Nat) (hi : i < 10) (hj : j < m.timings.length) :
    ((List.range 10).flatMap fun i2 =>
      m.timings.map fun slot => mkDose m (dateStr i2) slot)[
        i * m.timings.length + j]? =
      some (mkDose m (dateStr i) (m.timings.get ⟨j, hj⟩)) := by
  have hi' : i < (List.range 10).length := by
    rw [List.length_range]; exact hi
  have hj' : j < ((fun i2 =>
      m.timings.map fun slot => mkDose m (dateStr i2) slot)
        ((List.range 10).get ⟨i, hi'⟩)).length := by
    simpa [List.length_map] using hj
  have h := flatMap_getElem_aux
    (fun i2 => m.timings.map fun slot => mkDose m (dateStr i2) slot)
    (List.range 10) i hi' j hj'
  have hidx : (((List.range 10).take i).map fun a =>
      ((fun i2 => m.timings.map fun slot => mkDose m (dateStr i2) slot)
        a).length).sum = i * m.timings.length := by
    rw [List.take_range]
    have hmin : min i 10 = i := Nat.min_eq_left (Nat.le_of_lt hi)
    rw [hmin]
    simp only [List.length_map]
    rw [sum_map_const, List.length_range]
  rw [hidx] at h
  rw [h]
  have hrg : (List.range 10).get ⟨i, hi'⟩ = i := List.getElem_range i hi'
  show (m.timings.map fun slot =>
    mkDose m (dateStr ((List.range 10).get ⟨i, hi'⟩)) slot)[j]? = _
  rw [hrg, List.getElem?_map, List.getElem?_eq_getElem hj]
  rfl

/-- The list `scheduleDoses` decomposes medicine by medicine, in input order. -/
theorem scheduleDoses_cons (dateStr : Nat → String) (m : Medicine)
    (rest : List Medicine) :
    scheduleDoses dateStr (m :: rest) =
      ((List.range 10).flatMap fun i =>
        m.timings.map fun slot => mkDose m (dateStr i) slot) ++
        scheduleDoses dateStr rest := by
  simp [scheduleDoses]

/-- C8: `generateSchedule` appends and never replaces: the previous
medicines and doses survive unchanged as the beginnings of the new
collections, the generated doses follow them (grouped by medicine in
input order), history and remedies are untouched, the extraction
marker is set to the current time, and repeated calls accumulate dose
blocks. -/
theorem generateSchedule_appends_frame (dateStr : Nat → String)
    (now : String) (M : List Medicine) (st : CareState) :
    (generateSchedule dateStr now M st).medicines = st.medicines ++ M ∧
    (generateSchedule dateStr now M st).doses =
      st.doses ++ scheduleDoses dateStr M ∧
    (generateSchedule dateStr now M st).history = st.history ∧
    (generateSchedule dateStr now M st).remedies = st.remedies ∧
    (generateSchedule dateStr now M st).lastExtractionDate = some now ∧
    (generateSchedule dateStr now M st).medicines.take
      st.medicines.length = st.medicines ∧
    (generateSchedule dateStr now M st).doses.take
      st.doses.length = st.doses ∧
    (∀ (m : Medicine) (rest : List Medicine),
      scheduleDoses dateStr (m :: rest) =
        ((List.range 10).flatMap fun i =>
          m.timings.map fun slot => mkDose m (dateStr i) slot) ++
          scheduleDoses dateStr rest) ∧
    (∀ (dateStr2 : Nat → String) (now2 : String) (M2 : List Medicine),
      (generateSchedule dateStr2 now2 M2
          (generateSchedule dateStr now M st)).doses =
        st.doses ++ scheduleDoses dateStr M ++ scheduleDoses dateStr2 M2) := by
  refine ⟨rfl, rfl, rfl, rfl, rfl, ?_, ?_,
    fun m rest => scheduleDoses_cons dateStr m rest,
    fun dateStr2 now2 M2 => ?_⟩
  · exact List.take_left st.medicines M
  · exact List.take_left st.doses (scheduleDoses dateStr M)
  · show (st.doses ++ scheduleDoses dateStr M) ++ scheduleDoses dateStr2 M2 =
      st.doses ++ scheduleDoses dateStr M ++ scheduleDoses dateStr2 M2
    rfl

/-- The generated dose list has 10 doses per slot per medicine. -/
theorem scheduleDoses_length (dateStr : Nat → String) (M : List Medicine) :
    (scheduleDoses dateStr M).length =
      (M.map fun m => 10 * m.timings.length).sum := by
  induction M with
  | nil => rfl
  | cons m rest ih =>
    rw [scheduleDoses_cons, List.length_append, medBlock_length, ih,
      List.map_cons, List.sum_cons]

/-- Positional characterization of the generated dose list: for the
`k`-th medicine, day offset `i` and slot index `j`, the dose sits at
position (sum of earlier medicines' block lengths) + `i * |timings| + j`. -/
theorem scheduleDoses_getElem (dateStr : Nat → String) (M : List Medicine)
    (k : Nat) (hk : k < M.length) (i : Nat) (hi : i < 10) (j : Nat)
    (hj : j < (M.get ⟨k, hk⟩).timings.length) :
    (scheduleDoses dateStr M)[
        ((M.take k).map fun m => 10 * m.timings.length).sum +
          (i * (M.get ⟨k, hk⟩).timings.length + j)]? =
      some (mkDose (M.get ⟨k, hk⟩) (dateStr i)
        ((M.get ⟨k, hk⟩).timings.get ⟨j, hj⟩)) := by
  have hr : i * (M.get ⟨k, hk⟩).timings.length + j <
      ((fun m => (List.range 10).flatMap fun i2 =>
        m.timings.map fun slot => mkDose m (dateStr i2) slot)
          (M.get ⟨k, hk⟩)).length := by
    rw [medBlock_length]
    calc i * (M.get ⟨k, hk⟩).timings.length + j
        < i * (M.get ⟨k, hk⟩).timings.length +
            (M.get ⟨k, hk⟩).timings.length := Nat.add_lt_add_left hj _
      _ = (i + 1) * (M.get ⟨k, hk⟩).timings.length :=
          (Nat.succ_mul i _).symm
      _ ≤ 10 * (M.get ⟨k, hk⟩).timings.length :=
          Nat.mul_le_mul_right _ (Nat.succ_le_of_lt hi)
  have h := flatMap_getElem_aux
    (fun m => (List.range 10).flatMap fun i2 =>
      m.timings.map fun slot => mkDose m (dateStr i2) slot)
    M k hk (i * (M.get ⟨k, hk⟩).timings.length + j) hr
  have hsum : ((M.take k).map fun a =>
      ((fun m => (List.range 10).flatMap fun i2 =>
        m.timings.map fun slot => mkDose m (dateStr i2) slot) a).length) =
      (M.take k).map fun m => 10 * m.timings.length :=
    List.map_congr_left fun a _ => medBlock_length dateStr a
  rw [hsum] at h
  rw [show scheduleDoses dateStr M = M.flatMap fun m =>
    (List.range 10).flatMap fun i2 =>
      m.timings.map fun slot => mkDose m (dateStr i2) slot from rfl]
  rw [h]
  exact medBlock_getElem dateStr (M.get ⟨k, hk⟩) i j hi hj

/-- The generated doses do not depend on any medicine's `durationDays`. -/
theorem scheduleDoses_duration_free (dateStr : Nat → String)
    (g : Medicine → Nat) :
    ∀ M : List Medicine,
      scheduleDoses dateStr (M.map fun m => { m with durationDays := g m }) =
        scheduleDoses dateStr M
  | [] => rfl
  | m :: rest => by
    rw [List.map_cons, scheduleDoses_cons, scheduleDoses_cons,
      scheduleDoses_duration_free dateStr g rest]
    rfl

/-- C1: `generateSchedule` emits, for each medicine, for each of the 10
day offsets, for each declared slot (in declaration order), exactly one
new pending dose carrying the medicine's id and name, the offset date,
the slot, and the concatenated identifier — 10 × |timings| new doses
per medicine, wholly independent of `durationDays`.  The per-triple
position pins each dose down uniquely. -/
theorem generateSchedule_emits_cross_product (dateStr : Nat → String)
    (now : String) (M : List Medicine) (st : CareState) :
    ((generateSchedule dateStr now M st).doses.drop st.doses.length).length =
      (M.map fun m => 10 * m.timings.length).sum ∧
    (∀ (k : Nat) (hk : k < M.length) (i : Nat) (hi : i < 10)
        (j : Nat) (hj : j < (M.get ⟨k, hk⟩).timings.length),
      ((generateSchedule dateStr now M st).doses.drop st.doses.length)[
          ((M.take k).map fun m => 10 * m.timings.length).sum +
            (i * (M.get ⟨k, hk⟩).timings.length + j)]? =
        some { id := doseIdOf (M.get ⟨k, hk⟩).id (dateStr i)
                 ((M.get ⟨k, hk⟩).timings.get ⟨j, hj⟩),
               medicineId := (M.get ⟨k, hk⟩).id,
               medicineName := (M.get ⟨k, hk⟩).name,
               date := dateStr i,
               timeSlot := (M.get ⟨k, hk⟩).timings.get ⟨j, hj⟩,
               status := DoseStatus.pending }) ∧
    (∀ g : Medicine → Nat,
      (generateSchedule dateStr now
          (M.map fun m => { m with durationDays := g m }) st).doses =
        (generateSchedule dateStr now M st).doses) := by
  have hdrop : (generateSchedule dateStr now M st).doses.drop
      st.doses.length = scheduleDoses dateStr M :=
    List.drop_left st.doses (scheduleDoses dateStr M)
  refine ⟨?_, ?_, ?_⟩
  · rw [hdrop]
    exact scheduleDoses_length dateStr M
  · intro k hk i hi j hj
    rw [hdrop]
    exact scheduleDoses_getElem dateStr M k hk i hi j hj
  · intro g
    show st.doses ++ scheduleDoses dateStr
        (M.map fun m => { m with durationDays := g m }) =
      st.doses ++ scheduleDoses dateStr M
    rw [scheduleDoses_duration_free]

/-- C1 witness: for one concrete medicine with two slots, the day-0
slot-1 dose sits at position 1 with the specified fields. -/
theorem generateSchedule_emits_cross_product_witness :
    ((generateSchedule (fun _ => "2024-01-01") "2024-01-01T00:00:00Z"
        [{ id := "m1", name := "Paracetamol", dosage := "500mg",
           frequency := "bd", timings := ["Morning", "Night"],
           durationDays := 5 }]
        initialState).doses.drop initialState.doses.length)[
        (([({ id := "m1", name := "Paracetamol", dosage := "500mg",
              frequency := "bd", timings := ["Morning", "Night"],
              durationDays := 5 } : Medicine)].take 0).map fun m =>
            10 * m.timings.length).sum + (0 * 2 + 1)]? =
      some { id := "m1-2024-01-01-Night", medicineId := "m1",
             medicineName := "Paracetamol", date := "2024-01-01",
             timeSlot := "Night", status := DoseStatus.pending } := by
  have h := (generateSchedule_emits_cross_product (fun _ => "2024-01-01")
    "2024-01-01T00:00:00Z"
    [{ id := "m1", name := "Paracetamol", dosage := "500mg",
       frequency := "bd", timings := ["Morning", "Night"],
       durationDays := 5 }]
    initialState).2.1 0 (by decide) 0 (by decide) 1 (by decide)
  simpa using h

end CareCompanion

